import Mathlib

/-!
# Verification of `src/sparrow.py` (auto-send-tweets)

Shallow embedding of the `TwitterBot` class from `src/sparrow.py`:
the retry-with-backoff executor, credential resolution with optional
KMS decryption, tweet validation and sending, random tweet selection,
and the Lambda `handler` entry point.

Conventions of the embedding:
* A Python callable that may raise is modelled as a function into
  `Except ε α`; since the same callable is invoked once per retry
  attempt, an operation is a function `Nat → Except ε α` from the
  zero-based attempt index to that attempt's outcome.
* `time.sleep(delay)` is modelled by recording `delay` in a trace,
  since the spec's claims are about which delays are computed.
* Python numbers (`backoff_factor`, `max_delay`) are modelled as `ℚ`.
* File/environment lookups are modelled as `String → Option String`.
-/

set_option autoImplicit false

universe u v

/-- The `retry` section of the configuration: `max_attempts`,
`backoff_factor`, `max_delay` (see `_retry_with_backoff` reading
`self.config` retry section). -/
structure RetryPolicy where
  max_attempts : Nat
  backoff_factor : ℚ
  max_delay : ℚ

/-- Observable behaviour of one run of `_retry_with_backoff`:
`outcome` is `some (.ok a)` when the function returned `a`,
`some (.error e)` when it re-raised `e`, and `none` when the `for`
loop body never ran (`max_attempts = 0`, Python falls through and
returns `None`); `calls` counts invocations of the wrapped callable;
`delays` lists the arguments passed to `time.sleep`, in order. -/
structure RetryTrace (ε : Type u) (α : Type v) where
  outcome : Option (Except ε α)
  calls : Nat
  delays : List ℚ

/-- The body of the `for attempt in range(max_attempts)` loop of
`_retry_with_backoff`, as a recursion on the number of remaining loop
iterations. `attempt` is the current zero-based index; with
`remaining + 1` iterations left, `attempt == max_attempts - 1` exactly
when `remaining = 0`. On success the result is returned at once; on
failure at the last iteration the error is re-raised; otherwise
`delay = min(backoff_factor ** attempt, max_delay)` is slept and the
loop continues. -/
def retryAux {ε : Type u} {α : Type v} (b D : ℚ) (op : Nat → Except ε α) :
    Nat → Nat → RetryTrace ε α
  | _, 0 => ⟨none, 0, []⟩
  | attempt, remaining + 1 =>
    match op attempt with
    | .ok a => ⟨some (.ok a), 1, []⟩
    | .error e =>
      if remaining = 0 then
        ⟨some (.error e), 1, []⟩
      else
        let rest := retryAux b D op (attempt + 1) remaining
        ⟨rest.outcome, rest.calls + 1, min (b ^ attempt) D :: rest.delays⟩

/-- Embedding of `TwitterBot._retry_with_backoff`: runs the loop from attempt `0` with `max_attempts` iterations left. -/
def _retry_with_backoff {ε : Type u} {α : Type v} (p : RetryPolicy)
    (op : Nat → Except ε α) : RetryTrace ε α :=
  retryAux p.backoff_factor p.max_delay op 0 p.max_attempts

/-- Errors that `_load_credentials` can raise: the re-raised
`FileNotFoundError` for the credentials file, an exception propagated
out of `_decrypt_with_kms`, and the the missing-credential `ValueError`. -/
inductive CredError where
  | fileNotFound : String → CredError
  | kmsFailure : String → CredError
  | missingCredential : String → CredError
deriving DecidableEq

/-- The `cred_mapping` dict of `_load_credentials`, in insertion
order: credential field name paired with its fallback environment
variable. -/
def cred_mapping : List (String × String) :=
  [("consumer_key", "TWITTER_CONSUMER_KEY"),
   ("consumer_secret", "TWITTER_CONSUMER_SECRET"),
   ("access_token_key", "TWITTER_ACCESS_TOKEN"),
   ("access_token_secret", "TWITTER_ACCESS_TOKEN_SECRET")]

/-- One iteration of the `for key, env_var in cred_mapping.items()`
loop of `_load_credentials`: if `key` is in the file content, use its
value, passed through `_decrypt_with_kms` exactly when `use_kms`
(decryption failure propagates); else if the environment variable is
set, use its raw value; else raise `Missing credential: key`.
`kms` models `_decrypt_with_kms`, an external call that either
returns a plaintext or raises. -/
def resolveField (credentials env : String → Option String) ( use_kms : Bool)
    (kms : String → Except String String) (key env_var : String) :
    Except CredError String :=
  match credentials key with
  | some value =>
    if use_kms then
      match kms value with
      | .ok plaintext => .ok plaintext
      | .error e => .error (.kmsFailure e)
    else .ok value
  | none =>
    match env env_var with
    | some v => .ok v
    | none => .error (.missingCredential key)

/-- The whole `for` loop of `_load_credentials`, building `result` in
`cred_mapping` order; the first raised error aborts the loop. -/
def resolveAll (credentials env : String → Option String) ( use_kms : Bool)
    (kms : String → Except String String) :
    List (String × String) → Except CredError (List (String × String))
  | [] => .ok []
  | (key, env_var) :: rest =>
    match resolveField credentials env use_kms kms key env_var with
    | .error e => .error e
    | .ok v =>
      match resolveAll credentials env use_kms kms rest with
      | .error e => .error e
      | .ok tail => .ok ((key, v) :: tail)

/-- Embedding of `TwitterBot._load_credentials`. `fileContent` is `none` when
opening `creds_file` raises `FileNotFoundError` (re-raised before any
per-field resolution) and `some credentials` when the JSON object was
loaded, modelled as a key-lookup function. -/
def _load_credentials (creds_file : String)
    (fileContent : Option (String → Option String))
    (env : String → Option String) ( use_kms : Bool)
    (kms : String → Except String String) :
    Except CredError (List (String × String)) :=
  match fileContent with
  | none => .error (.fileNotFound creds_file)
  | some credentials => resolveAll credentials env use_kms kms cred_mapping

/-- Observable behaviour of `send_tweet`: `result` is `.error msg`
when the `ValueError` escapes validation and `.ok b` for a returned
boolean; `calls` counts invocations of the posting operation
(`twitter_client.update_status` through `_retry_with_backoff`). -/
structure SendOutcome where
  result : Except String Bool
  calls : Nat

/-- Embedding of `TwitterBot.send_tweet`: raise on empty or
over-280-character text; otherwise run the posting operation under
`_retry_with_backoff`, returning `True` on success and `False` when
the propagated exception is caught. (With `max_attempts = 0` the
executor returns `None` without raising, so `send_tweet` logs and
returns `True`.) -/
def send_tweet {ε : Type u} {α : Type v} (p : RetryPolicy)
    (op : Nat → Except ε α) (tweet_text : String) : SendOutcome :=
  if tweet_text = "" ∨ 280 < tweet_text.length then
    ⟨.error "Tweet text must be 1-280 characters", 0⟩
  else
    let t := _retry_with_backoff p op
    match t.outcome with
    | some (.ok _) => ⟨.ok true, t.calls⟩
    | some (.error _) => ⟨.ok false, t.calls⟩
    | none => ⟨.ok true, t.calls⟩

/-- The boolean `send_tweet` returns once validation has passed, as a
function of the executor's outcome: `True` after a success (or after
the degenerate `max_attempts = 0` run, where `_retry_with_backoff`
returns `None` and no exception reaches the `except` clause), `False`
when the propagated exception is caught. -/
def sendResultOfOutcome {ε : Type u} {α : Type v} : Option (Except ε α) → Bool
  | some (.ok _) => true
  | some (.error _) => false
  | none => true

/-- Observable behaviour of `send_random_tweet`: the returned (or
raised) result, which tweet `random.choice` selected (if any), and
how often the posting operation ran. -/
structure RandomSendOutcome where
  result : Except String Bool
  selected : Option String
  calls : Nat

/-- Embedding of `TwitterBot.send_random_tweet`: with no tweets configured,
log and return `False`; otherwise select one tweet (`random.choice`
modelled by the in-range index `pick % tweets.length`) and delegate to
`send_tweet`. -/
def send_random_tweet {ε : Type u} {α : Type v} (p : RetryPolicy)
    (op : Nat → Except ε α) (tweets : List String) (pick : Nat) :
    RandomSendOutcome :=
  if tweets.isEmpty then ⟨.ok false, none, 0⟩
  else
    let selected_tweet := tweets.getD (pick % tweets.length) ""
    let o := send_tweet p op selected_tweet
    ⟨o.result, some selected_tweet, o.calls⟩

/-- The JSON body built by `handler`: either a success flag with a
message from the no-exception branch, or the caught exception text
(with an implicit success flag of False) from the `except` branch. -/
inductive HandlerBody where
  | message : Bool → String → HandlerBody
  | caught : String → HandlerBody
deriving DecidableEq

/-- The dict returned by `handler`: `statusCode` plus body. -/
structure HandlerResult where
  statusCode : Nat
  body : HandlerBody
deriving DecidableEq

/-- The Lambda `handler(event, context)`. `event`/`context` are opaque
and unused. `initResult` models `TwitterBot()` construction (config
load, logger setup, credential resolution, client setup), which either
succeeds or raises; any error raised there or by `send_random_tweet`
is caught and turned into a 500 response, and a returned boolean
yields 200 on success, 500 on failure. -/
def handler {Ev : Type u} {Ctx : Type v} {ε α : Type}
    (_event : Ev) (_context : Ctx) (initResult : Except String Unit)
    (p : RetryPolicy) (op : Nat → Except ε α) (tweets : List String)
    (pick : Nat) : HandlerResult :=
  match initResult with
  | .error e => ⟨500, .caught e⟩
  | .ok _ =>
    match (send_random_tweet p op tweets pick).result with
    | .ok success =>
      ⟨if success then 200 else 500,
       .message success
         (if success then "Tweet sent successfully" else "Failed to send tweet")⟩
    | .error e => ⟨500, .caught e⟩

/-! ## Helper lemmas about the retry loop -/

theorem min_pow_congr (b D : ℚ) {x y : Nat} (h : x = y) :
    min (b ^ x) D = min (b ^ y) D := by rw [h]

theorem range_map_backoff_cons (b D : ℚ) (a m : Nat) :
    min (b ^ a) D :: (List.range m).map (fun i => min (b ^ (a + 1 + i)) D)
      = (List.range (m + 1)).map (fun i => min (b ^ (a + i)) D) := by
  rw [List.range_succ_eq_map, List.map_cons, List.map_map]
  refine congrArg₂ List.cons (min_pow_congr b D (by omega)) (List.map_congr_left ?_)
  intro i _
  exact min_pow_congr b D (by omega)

theorem retryAux_fail {ε : Type u} {α : Type v} (b D : ℚ) (errF : Nat → ε) :
    ∀ (n a : Nat), 1 ≤ n →
      retryAux b D (fun i => (Except.error (errF i) : Except ε α)) a n
        = ⟨some (.error (errF (a + n - 1))), n,
           (List.range (n - 1)).map (fun i => min (b ^ (a + i)) D)⟩ := by
  intro n
  induction n with
  | zero => intro a h; omega
  | succ m ih =>
    intro a _
    match m, ih with
    | 0, _ => simp [retryAux]
    | m + 1, ih =>
      have h := ih (a + 1) (by omega)
      have key : retryAux b D (fun i => (Except.error (errF i) : Except ε α)) a (m + 1 + 1)
          = ⟨(retryAux b D (fun i => (Except.error (errF i) : Except ε α)) (a + 1) (m + 1)).outcome,
             (retryAux b D (fun i => (Except.error (errF i) : Except ε α)) (a + 1) (m + 1)).calls + 1,
             min (b ^ a) D ::
               (retryAux b D (fun i => (Except.error (errF i) : Except ε α)) (a + 1) (m + 1)).delays⟩ := rfl
      rw [key, h]
      simp only [RetryTrace.mk.injEq]
      refine ⟨?_, trivial, ?_⟩
      · have hx : a + 1 + (m + 1) - 1 = a + (m + 1 + 1) - 1 := by omega
        rw [hx]
      · rw [Nat.add_sub_cancel, Nat.add_sub_cancel, range_map_backoff_cons]

theorem retryAux_ok_step {ε : Type u} {α : Type v} (b D : ℚ) (op : Nat → Except ε α)
    (a n : Nat) (v : α) (hop : op a = .ok v) :
    retryAux b D op a (n + 1) = ⟨some (.ok v), 1, []⟩ := by
  simp [retryAux, hop]

theorem retryAux_last_step {ε : Type u} {α : Type v} (b D : ℚ) (op : Nat → Except ε α)
    (a : Nat) (e : ε) (hop : op a = .error e) :
    retryAux b D op a 1 = ⟨some (.error e), 1, []⟩ := by
  simp [retryAux, hop]

theorem retryAux_cons_step {ε : Type u} {α : Type v} (b D : ℚ) (op : Nat → Except ε α)
    (a n : Nat) (e : ε) (hop : op a = .error e) :
    retryAux b D op a (n + 2)
      = ⟨(retryAux b D op (a + 1) (n + 1)).outcome,
         (retryAux b D op (a + 1) (n + 1)).calls + 1,
         min (b ^ a) D :: (retryAux b D op (a + 1) (n + 1)).delays⟩ := by
  conv_lhs => rw [retryAux]
  rw [hop]
  simp

theorem retryAux_delays_eq {ε : Type u} {α : Type v} (b D : ℚ) (op : Nat → Except ε α) :
    ∀ (n a : Nat),
      (retryAux b D op a n).delays
        = (List.range (retryAux b D op a n).delays.length).map
            (fun i => min (b ^ (a + i)) D) := by
  intro n
  induction n with
  | zero => intro a; rfl
  | succ m ih =>
    intro a
    cases hop : op a with
    | ok v => rw [retryAux_ok_step b D op a m v hop]; rfl
    | error e =>
      cases m with
      | zero => rw [retryAux_last_step b D op a e hop]; rfl
      | succ m' =>
        rw [retryAux_cons_step b D op a m' e hop]
        show min (b ^ a) D :: (retryAux b D op (a + 1) (m' + 1)).delays
            = (List.range (min (b ^ a) D ::
                (retryAux b D op (a + 1) (m' + 1)).delays).length).map
                (fun i => min (b ^ (a + i)) D)
        rw [List.length_cons, ih (a + 1)]
        rw [List.length_map, List.length_range]
        exact range_map_backoff_cons b D a _

theorem retryAux_delays_get {ε : Type u} {α : Type v} (b D : ℚ) (op : Nat → Except ε α)
    (n a i : Nat) (h : i < (retryAux b D op a n).delays.length) :
    (retryAux b D op a n).delays[i]? = some (min (b ^ (a + i)) D) := by
  conv_lhs => rw [retryAux_delays_eq b D op n a]
  rw [List.getElem?_map, List.getElem?_range h]
  rfl

theorem retryAux_succ {ε : Type u} {α : Type v} (b D : ℚ) (op : Nat → Except ε α) (v : α) :
    ∀ (k : Nat), 1 ≤ k → ∀ (n a : Nat), k ≤ n →
      (∀ i, i < k - 1 → ∃ e, op (a + i) = Except.error e) →
      op (a + (k - 1)) = .ok v →
      retryAux b D op a n
        = ⟨some (.ok v), k, (List.range (k - 1)).map (fun i => min (b ^ (a + i)) D)⟩ := by
  intro k
  induction k with
  | zero => intro h; omega
  | succ j ih =>
    intro _ n a hkn hfail hok
    match j, ih with
    | 0, _ =>
      obtain ⟨n', rfl⟩ : ∃ n', n = n' + 1 := ⟨n - 1, by omega⟩
      have hopa : op a = .ok v := by simpa using hok
      rw [retryAux_ok_step b D op a n' v hopa]
      simp
    | j' + 1, ih =>
      obtain ⟨e0, he0⟩ := hfail 0 (by omega)
      have hopa : op a = .error e0 := by simpa using he0
      obtain ⟨n', rfl⟩ : ∃ n', n = n' + 2 := ⟨n - 2, by omega⟩
      rw [retryAux_cons_step b D op a n' e0 hopa]
      have hrest := ih (by omega) (n' + 1) (a + 1) (by omega)
        (fun i hi => by
          obtain ⟨e, he⟩ := hfail (i + 1) (by omega)
          refine ⟨e, ?_⟩
          rw [show a + 1 + i = a + (i + 1) by omega]
          exact he)
        (by
          rw [show a + 1 + (j' + 1 - 1) = a + (j' + 1 + 1 - 1) by omega]
          exact hok)
      rw [hrest]
      simp only [RetryTrace.mk.injEq]
      refine ⟨trivial, trivial, ?_⟩
      rw [show j' + 1 - 1 = j' by omega, show j' + 1 + 1 - 1 = j' + 1 by omega]
      exact range_map_backoff_cons b D a j'

/-! ## Claims about the retry executor -/

/-- C1: for every retry policy with `max_attempts = N ≥ 1`, running
`_retry_with_backoff` on an operation that fails on every invocation
calls the operation exactly `N` times and propagates the error of the
`N`-th (final) attempt unchanged; when `N = 1` there is a single
attempt and no delay. -/
theorem retry_always_fail {ε : Type u} {α : Type v} (p : RetryPolicy)
    (op : Nat → Except ε α) (errF : Nat → ε)
    (hop : ∀ i, op i = Except.error (errF i)) (hN : 1 ≤ p.max_attempts) :
    (_retry_with_backoff p op).calls = p.max_attempts ∧
    (_retry_with_backoff p op).outcome
      = some (Except.error (errF (p.max_attempts - 1))) ∧
    (p.max_attempts = 1 → (_retry_with_backoff p op).delays = []) := by
  have hop' : op = fun i => Except.error (errF i) := funext hop
  subst hop'
  unfold _retry_with_backoff
  rw [retryAux_fail p.backoff_factor p.max_delay errF p.max_attempts 0 hN]
  refine ⟨rfl, ?_, ?_⟩
  · show some (Except.error (errF (0 + p.max_attempts - 1)))
        = some (Except.error (errF (p.max_attempts - 1)))
    rw [Nat.zero_add]
  · intro h1
    show (List.range (p.max_attempts - 1)).map _ = []
    rw [h1]
    rfl

theorem retry_always_fail_witness :
    (_retry_with_backoff ⟨3, 2, 10⟩ (fun i => (Except.error i : Except Nat Unit))).calls = 3 ∧
    (_retry_with_backoff ⟨3, 2, 10⟩ (fun i => (Except.error i : Except Nat Unit))).outcome
      = some (Except.error 2) := by
  have h := retry_always_fail ⟨3, 2, 10⟩ (fun i => (Except.error i : Except Nat Unit))
    (fun i => i) (fun _ => rfl) (by decide)
  exact ⟨h.1, h.2.1⟩

/-- C2 as stated is false on the code: nothing clamps the computed
delay at zero, so a negative `backoff_factor` yields a negative delay.
With `backoff_factor = -2`, `max_delay = 5` and an always-failing
operation, the delay recorded before the third attempt is
`min((-2)^1, 5) = -2 < 0`, contradicting "the delay is never
negative". -/
theorem retry_delay_negative_counterexample :
    (_retry_with_backoff ⟨3, -2, 5⟩
        (fun i => (Except.error i : Except Nat Unit))).delays[1]? = some ((-2 : ℚ)) ∧
    ((-2 : ℚ) < 0) := by
  constructor
  · decide
  · norm_num

/-- C2 (amended): for every retry index `i` that is followed by
another attempt, the delay incurred equals
`min(backoff_factor ^ i, max_delay)`; it never exceeds `max_delay`;
and it is nonnegative whenever the configured `backoff_factor` and
`max_delay` are both nonnegative. -/
theorem retry_delay_formula {ε : Type u} {α : Type v} (p : RetryPolicy)
    (op : Nat → Except ε α) (i : Nat)
    (h : i < (_retry_with_backoff p op).delays.length) :
    (_retry_with_backoff p op).delays[i]?
      = some (min (p.backoff_factor ^ i) p.max_delay) ∧
    min (p.backoff_factor ^ i) p.max_delay ≤ p.max_delay ∧
    (0 ≤ p.backoff_factor → 0 ≤ p.max_delay →
      0 ≤ min (p.backoff_factor ^ i) p.max_delay) := by
  refine ⟨?_, min_le_right _ _, fun hb hD => le_min (pow_nonneg hb i) hD⟩
  have hg := retryAux_delays_get p.backoff_factor p.max_delay op p.max_attempts 0 i h
  simpa using hg

theorem retry_delay_formula_witness :
    (_retry_with_backoff ⟨3, 2, 10⟩
        (fun i => (Except.error i : Except Nat Unit))).delays[1]?
      = some (min ((2 : ℚ) ^ 1) 10) ∧
    (0 : ℚ) ≤ min ((2 : ℚ) ^ 1) 10 := by
  have h := retry_delay_formula ⟨3, 2, 10⟩
    (fun i => (Except.error i : Except Nat Unit)) 1 (by decide)
  exact ⟨h.1, h.2.2 (by norm_num) (by norm_num)⟩

/-- C3: for every policy with `max_attempts = N ≥ 1` and every
operation failing on its first `k - 1` invocations and succeeding on
the `k`-th (`k ≤ N`), `_retry_with_backoff` calls the operation
exactly `k` times, incurs exactly `k - 1` delays, and returns the
operation's result with no further attempts. -/
theorem retry_succeeds_at_k {ε : Type u} {α : Type v} (p : RetryPolicy)
    (op : Nat → Except ε α) (k : Nat) (v : α) (hk : 1 ≤ k)
    (hkN : k ≤ p.max_attempts)
    (hfail : ∀ i, i < k - 1 → ∃ e, op i = Except.error e)
    (hok : op (k - 1) = Except.ok v) :
    (_retry_with_backoff p op).calls = k ∧
    (_retry_with_backoff p op).outcome = some (Except.ok v) ∧
    (_retry_with_backoff p op).delays.length = k - 1 := by
  unfold _retry_with_backoff
  rw [retryAux_succ p.backoff_factor p.max_delay op v k hk p.max_attempts 0 hkN
    (fun i hi => by simpa using hfail i hi) (by simpa using hok)]
  exact ⟨rfl, rfl, by simp⟩

theorem retry_succeeds_at_k_witness :
    (_retry_with_backoff ⟨3, 2, 10⟩
        (fun i => if i = 0 then (Except.error 0 : Except Nat Nat) else .ok 7)).calls = 2 ∧
    (_retry_with_backoff ⟨3, 2, 10⟩
        (fun i => if i = 0 then (Except.error 0 : Except Nat Nat) else .ok 7)).outcome
      = some (Except.ok 7) ∧
    (_retry_with_backoff ⟨3, 2, 10⟩
        (fun i => if i = 0 then (Except.error 0 : Except Nat Nat) else .ok 7)).delays.length
      = 1 := by
  have h := retry_succeeds_at_k ⟨3, 2, 10⟩
    (fun i => if i = 0 then (Except.error 0 : Except Nat Nat) else .ok 7) 2 7
    (by decide) (by decide)
    (fun i hi => ⟨0, by
      have h0 : i = 0 := by omega
      subst h0
      rfl⟩)
    rfl
  exact h

/-! ## Helper lemmas about credential resolution -/

theorem resolveAll_ok_fst (c e : String → Option String) (u : Bool)
    (k : String → Except String String) :
    ∀ (l : List (String × String)) (r : List (String × String)),
      resolveAll c e u k l = .ok r → r.map Prod.fst = l.map Prod.fst := by
  intro l
  induction l with
  | nil =>
    intro r h
    simp only [resolveAll, Except.ok.injEq] at h
    subst h
    rfl
  | cons hd tl ih =>
    intro r h
    obtain ⟨k1, e1⟩ := hd
    simp only [resolveAll] at h
    cases hrf : resolveField c e u k k1 e1 with
    | error er => rw [hrf] at h; simp at h
    | ok v =>
      rw [hrf] at h
      cases hra : resolveAll c e u k tl with
      | error er => rw [hra] at h; simp at h
      | ok tail =>
        rw [hra] at h
        simp only [Except.ok.injEq] at h
        subst h
        simp only [List.map_cons]
        rw [ih tail hra]

theorem resolveAll_ok_mem (c e : String → Option String) (u : Bool)
    (k : String → Except String String) :
    ∀ (l : List (String × String)) (r : List (String × String)),
      resolveAll c e u k l = .ok r →
      ∀ key ev, (key, ev) ∈ l →
        ∃ v, resolveField c e u k key ev = .ok v ∧ (key, v) ∈ r := by
  intro l
  induction l with
  | nil => intro r _ key ev hm; simp at hm
  | cons hd tl ih =>
    intro r h key ev hm
    obtain ⟨k1, e1⟩ := hd
    simp only [resolveAll] at h
    cases hrf : resolveField c e u k k1 e1 with
    | error er => rw [hrf] at h; simp at h
    | ok v =>
      rw [hrf] at h
      cases hra : resolveAll c e u k tl with
      | error er => rw [hra] at h; simp at h
      | ok tail =>
        rw [hra] at h
        simp only [Except.ok.injEq] at h
        subst h
        rcases List.mem_cons.mp hm with heq | hmem
        · have h1 : key = k1 := congrArg Prod.fst heq
          have h2 : ev = e1 := congrArg Prod.snd heq
          subst h1
          subst h2
          exact ⟨v, hrf, List.mem_cons_self _ _⟩
        · obtain ⟨w, hw, hmemr⟩ := ih tail hra key ev hmem
          exact ⟨w, hw, List.mem_cons_of_mem _ hmemr⟩

theorem resolveAll_not_ok_of_error_mem (c e : String → Option String) (u : Bool)
    (k : String → Except String String) :
    ∀ (l : List (String × String)) (key ev : String) (err : CredError),
      (key, ev) ∈ l → resolveField c e u k key ev = .error err →
      ∀ r, resolveAll c e u k l ≠ .ok r := by
  intro l
  induction l with
  | nil => intro key ev err hm; simp at hm
  | cons hd tl ih =>
    intro key ev err hm hrf r h
    obtain ⟨k1, e1⟩ := hd
    simp only [resolveAll] at h
    rcases List.mem_cons.mp hm with heq | hmem
    · have h1 : key = k1 := congrArg Prod.fst heq
      have h2 : ev = e1 := congrArg Prod.snd heq
      subst h1
      subst h2
      rw [hrf] at h
      simp at h
    · cases hrf1 : resolveField c e u k k1 e1 with
      | error er => rw [hrf1] at h; simp at h
      | ok v =>
        rw [hrf1] at h
        cases hra : resolveAll c e u k tl with
        | error er => rw [hra] at h; simp at h
        | ok tail => exact ih key ev err hmem hrf tail hra

theorem resolveAll_first_error (c e : String → Option String) (u : Bool)
    (k : String → Except String String) :
    ∀ (l : List (String × String)) (key ev : String) (err : CredError),
      (l.map Prod.fst).Nodup → (key, ev) ∈ l →
      resolveField c e u k key ev = .error err →
      (∀ k2 e2, (k2, e2) ∈ l → k2 ≠ key →
        ∃ v, resolveField c e u k k2 e2 = .ok v) →
      resolveAll c e u k l = .error err := by
  intro l
  induction l with
  | nil => intro key ev err _ hm; simp at hm
  | cons hd tl ih =>
    intro key ev err hnd hm hrf hothers
    obtain ⟨k1, e1⟩ := hd
    rcases List.mem_cons.mp hm with heq | hmem
    · have h1 : key = k1 := congrArg Prod.fst heq
      have h2 : ev = e1 := congrArg Prod.snd heq
      subst h1
      subst h2
      simp only [resolveAll]
      rw [hrf]
    · have hk1 : k1 ≠ key := by
        intro hcontra
        subst hcontra
        have hmm : k1 ∈ tl.map Prod.fst := List.mem_map_of_mem Prod.fst hmem
        exact absurd hmm (List.nodup_cons.mp hnd).1
      obtain ⟨v, hv⟩ := hothers k1 e1 (List.mem_cons_self _ _) hk1
      simp only [resolveAll]
      rw [hv, ih key ev err (List.nodup_cons.mp hnd).2 hmem hrf
        (fun k2 e2 hm2 hne => hothers k2 e2 (List.mem_cons_of_mem _ hm2) hne)]

theorem cred_mapping_keys_nodup : (cred_mapping.map Prod.fst).Nodup := by decide

/-! ## Claims about credential resolution -/

/-- C4: with the credentials file loaded, each of the four fields
resolves to the file's value (KMS-decrypted exactly when `use_kms`)
when present, otherwise to the set environment variable's raw value,
otherwise loading fails with a missing-credential error naming that
field (the first unresolvable field in `cred_mapping` order names the
error); on success the result has exactly the four credential fields
with those resolved values. -/
theorem load_credentials_resolution (credentials env : String → Option String)
    (u : Bool) (kms : String → Except String String) (fname : String) :
    (∀ r, _load_credentials fname (some credentials) env u kms = .ok r →
      r.map Prod.fst = cred_mapping.map Prod.fst) ∧
    (∀ key ev v r, (key, ev) ∈ cred_mapping → credentials key = some v →
      _load_credentials fname (some credentials) env u kms = .ok r →
      (u = false → (key, v) ∈ r) ∧
      (∀ pt, u = true → kms v = .ok pt → (key, pt) ∈ r)) ∧
    (∀ key ev w r, (key, ev) ∈ cred_mapping → credentials key = none →
      env ev = some w →
      _load_credentials fname (some credentials) env u kms = .ok r →
      (key, w) ∈ r) ∧
    (∀ key ev, (key, ev) ∈ cred_mapping → credentials key = none →
      env ev = none →
      ∀ r, _load_credentials fname (some credentials) env u kms ≠ .ok r) ∧
    (∀ key ev, (key, ev) ∈ cred_mapping → credentials key = none →
      env ev = none →
      (∀ k2 e2, (k2, e2) ∈ cred_mapping → k2 ≠ key →
        ∃ v, resolveField credentials env u kms k2 e2 = .ok v) →
      _load_credentials fname (some credentials) env u kms
        = .error (.missingCredential key)) := by
  refine ⟨?_, ?_, ?_, ?_, ?_⟩
  · intro r h
    exact resolveAll_ok_fst credentials env u kms cred_mapping r h
  · intro key ev v r hmem hck h
    obtain ⟨w, hw, hmemr⟩ :=
      resolveAll_ok_mem credentials env u kms cred_mapping r h key ev hmem
    constructor
    · intro hu
      subst hu
      simp only [resolveField, hck, if_neg, Bool.false_eq_true, if_false,
        Except.ok.injEq] at hw
      subst hw
      exact hmemr
    · intro pt hu hkms
      subst hu
      simp only [resolveField, hck, if_true, hkms, Except.ok.injEq] at hw
      subst hw
      exact hmemr
  · intro key ev w r hmem hck henv h
    obtain ⟨w2, hw2, hmemr⟩ :=
      resolveAll_ok_mem credentials env u kms cred_mapping r h key ev hmem
    simp only [resolveField, hck, henv, Except.ok.injEq] at hw2
    subst hw2
    exact hmemr
  · intro key ev hmem hck henv r h
    have hrf : resolveField credentials env u kms key ev
        = .error (.missingCredential key) := by
      simp [resolveField, hck, henv]
    exact resolveAll_not_ok_of_error_mem credentials env u kms cred_mapping
      key ev _ hmem hrf r h
  · intro key ev hmem hck henv hothers
    have hrf : resolveField credentials env u kms key ev
        = .error (.missingCredential key) := by
      simp [resolveField, hck, henv]
    exact resolveAll_first_error credentials env u kms cred_mapping key ev _
      cred_mapping_keys_nodup hmem hrf hothers

theorem load_credentials_resolution_witness :
    ("access_token_secret", "d") ∈
      [("consumer_key", "a"), ("consumer_secret", "b"),
       ("access_token_key", "c"), ("access_token_secret", "d")] := by
  have h := (load_credentials_resolution
    (fun key => if key = "consumer_key" then some "a" else
      if key = "consumer_secret" then some "b" else
      if key = "access_token_key" then some "c" else none)
    (fun ev => if ev = "TWITTER_ACCESS_TOKEN_SECRET" then some "d" else none)
    false (fun s => .ok s) "twitter_credentials.json").2.2.1
  exact h "access_token_secret" "TWITTER_ACCESS_TOKEN_SECRET" "d"
    [("consumer_key", "a"), ("consumer_secret", "b"),
     ("access_token_key", "c"), ("access_token_secret", "d")]
    (by decide) rfl rfl rfl

/-- C8: if the credentials file is absent, `_load_credentials` raises
the whole-file `FileNotFoundError` immediately, for any environment
and any KMS behaviour: no per-field resolution happens and no field
falls back to its environment variable. -/
theorem load_credentials_file_absent (creds_file : String)
    (env : String → Option String) (u : Bool)
    (kms : String → Except String String) :
    _load_credentials creds_file none env u kms
      = .error (.fileNotFound creds_file) := rfl

/-- C9: when a credential field is present in the file and KMS
decryption of its value fails, the decryption error is fatal: the
field's own resolution yields the KMS error for every environment (no
environment fallback), the whole load can never succeed, and when
every other field resolves the load propagates exactly that KMS
error. -/
theorem kms_failure_no_fallback (credentials env : String → Option String)
    (kms : String → Except String String) (fname key ev v e : String)
    (hmem : (key, ev) ∈ cred_mapping) (hck : credentials key = some v)
    (hkms : kms v = .error e) :
    resolveField credentials env true kms key ev = .error (.kmsFailure e) ∧
    (∀ r, _load_credentials fname (some credentials) env true kms ≠ .ok r) ∧
    ((∀ k2 e2, (k2, e2) ∈ cred_mapping → k2 ≠ key →
        ∃ w, resolveField credentials env true kms k2 e2 = .ok w) →
      _load_credentials fname (some credentials) env true kms
        = .error (.kmsFailure e)) := by
  have hrf : resolveField credentials env true kms key ev
      = .error (.kmsFailure e) := by
    simp [resolveField, hck, hkms]
  refine ⟨hrf, ?_, ?_⟩
  · intro r h
    exact resolveAll_not_ok_of_error_mem credentials env true kms cred_mapping
      key ev _ hmem hrf r h
  · intro hothers
    exact resolveAll_first_error credentials env true kms cred_mapping key ev _
      cred_mapping_keys_nodup hmem hrf hothers

theorem kms_failure_no_fallback_witness :
    _load_credentials "twitter_credentials.json"
      (some (fun key => if key = "consumer_key" then some "ct" else none))
      (fun _ => some "fallback") true (fun _ => .error "boom")
      = .error (.kmsFailure "boom") := by
  have h := (kms_failure_no_fallback
    (fun key => if key = "consumer_key" then some "ct" else none)
    (fun _ => some "fallback") (fun _ => .error "boom")
    "twitter_credentials.json" "consumer_key" "TWITTER_CONSUMER_KEY" "ct" "boom"
    (by decide) rfl rfl).2.2
  refine h ?_
  intro k2 e2 hm2 hne
  fin_cases hm2
  · exact absurd rfl hne
  · exact ⟨"fallback", rfl⟩
  · exact ⟨"fallback", rfl⟩
  · exact ⟨"fallback", rfl⟩

/-! ## Claims about tweet sending and the handler -/

theorem string_length_eq_zero_iff (s : String) : s.length = 0 ↔ s = "" := by
  constructor
  · intro h
    cases s with
    | mk data =>
      cases data with
      | nil => rfl
      | cons c cs => simp [String.length] at h
  · intro h
    subst h
    rfl

theorem send_tweet_eq {ε : Type u} {α : Type v} (p : RetryPolicy)
    (op : Nat → Except ε α) (text : String)
    (h : ¬(text = "" ∨ 280 < text.length)) :
    send_tweet p op text
      = ⟨.ok (sendResultOfOutcome (_retry_with_backoff p op).outcome),
         (_retry_with_backoff p op).calls⟩ := by
  simp only [send_tweet, if_neg h]
  rcases (_retry_with_backoff p op).outcome with _ | (e | a) <;> rfl

/-- C5: `send_tweet` raises the validation error, with zero
invocations of the posting operation, exactly when the text is empty
or longer than 280 characters; any text of valid length (1 to 280)
passes validation and yields a boolean result regardless of how the
send itself fares. -/
theorem send_tweet_validation {ε : Type u} {α : Type v} (p : RetryPolicy)
    (op : Nat → Except ε α) (text : String) :
    ((send_tweet p op text).result = .error "Tweet text must be 1-280 characters"
      ↔ (text.length = 0 ∨ 280 < text.length)) ∧
    ((text.length = 0 ∨ 280 < text.length) → (send_tweet p op text).calls = 0) ∧
    (text.length ≠ 0 → text.length ≤ 280 →
      ∃ bres, (send_tweet p op text).result = Except.ok bres) := by
  by_cases hcond : text = "" ∨ 280 < text.length
  · have hlen : text.length = 0 ∨ 280 < text.length := by
      rcases hcond with h | h
      · left; rw [h]; rfl
      · right; exact h
    have hres : send_tweet p op text
        = ⟨.error "Tweet text must be 1-280 characters", 0⟩ := by
      simp only [send_tweet, if_pos hcond]
    rw [hres]
    refine ⟨iff_of_true rfl hlen, fun _ => rfl, fun h1 h2 => ?_⟩
    rcases hlen with h0 | hgt
    · exact absurd h0 h1
    · exact absurd h2 (by omega)
  · have hlen0 : text.length ≠ 0 := fun h0 =>
      hcond (Or.inl ((string_length_eq_zero_iff text).mp h0))
    rw [send_tweet_eq p op text hcond]
    refine ⟨iff_of_false (by simp) ?_, ?_, fun _ _ => ⟨_, rfl⟩⟩
    · rintro (h0 | hgt)
      · exact hlen0 h0
      · exact hcond (Or.inr hgt)
    · rintro (h0 | hgt)
      · exact absurd h0 hlen0
      · exact absurd (Or.inr hgt) hcond

theorem send_tweet_validation_witness :
    (send_tweet ⟨2, 2, 10⟩ (fun i => (Except.error i : Except Nat Unit)) "").result
      = Except.error "Tweet text must be 1-280 characters" ∧
    (send_tweet ⟨2, 2, 10⟩ (fun i => (Except.error i : Except Nat Unit)) "").calls = 0 ∧
    (send_tweet ⟨2, 2, 10⟩ (fun i => (Except.error i : Except Nat Unit))
        (String.mk (List.replicate 280 'a'))).result
      ≠ Except.error "Tweet text must be 1-280 characters" := by
  have h0 := send_tweet_validation ⟨2, 2, 10⟩
    (fun i => (Except.error i : Except Nat Unit)) ""
  have h280 := send_tweet_validation ⟨2, 2, 10⟩
    (fun i => (Except.error i : Except Nat Unit)) (String.mk (List.replicate 280 'a'))
  have hlen : (String.mk (List.replicate 280 'a')).length = 280 :=
    List.length_replicate 280 'a'
  refine ⟨h0.1.mpr (Or.inl rfl), h0.2.1 (Or.inl rfl), fun herr => ?_⟩
  have hbad := h280.1.mp herr
  rw [hlen] at hbad
  exact absurd hbad (by decide)

/-- C6: for every text passing validation, `send_tweet` returns the
boolean `true` when the retried posting operation eventually succeeds
within the attempt budget, and returns the boolean `false` — without
re-raising — when the executor propagates an error after exhausting
all attempts. -/
theorem send_tweet_bool_outcome {ε : Type u} {α : Type v} (p : RetryPolicy)
    (op : Nat → Except ε α) (text : String)
    (hv : ¬(text = "" ∨ 280 < text.length)) :
    ((∃ k v, 1 ≤ k ∧ k ≤ p.max_attempts ∧
        (∀ i, i < k - 1 → ∃ e, op i = Except.error e) ∧
        op (k - 1) = Except.ok v) →
      (send_tweet p op text).result = Except.ok true) ∧
    (1 ≤ p.max_attempts → (∀ i, ∃ e, op i = Except.error e) →
      (send_tweet p op text).result = Except.ok false) := by
  rw [send_tweet_eq p op text hv]
  constructor
  · rintro ⟨k, v, hk, hkN, hfail, hok⟩
    have houtcome : (_retry_with_backoff p op).outcome = some (Except.ok v) := by
      unfold _retry_with_backoff
      rw [retryAux_succ p.backoff_factor p.max_delay op v k hk p.max_attempts 0
        hkN (fun i hi => by simpa using hfail i hi) (by simpa using hok)]
    show Except.ok (sendResultOfOutcome (_retry_with_backoff p op).outcome)
        = Except.ok true
    rw [houtcome]
    rfl
  · intro hN hfail
    choose errF herr using hfail
    have houtcome : (_retry_with_backoff p op).outcome
        = some (Except.error (errF (p.max_attempts - 1))) := by
      rw [funext herr]
      unfold _retry_with_backoff
      rw [retryAux_fail p.backoff_factor p.max_delay errF p.max_attempts 0 hN]
      show some (Except.error (errF (0 + p.max_attempts - 1))) = _
      rw [Nat.zero_add]
    show Except.ok (sendResultOfOutcome (_retry_with_backoff p op).outcome)
        = Except.ok false
    rw [houtcome]
    rfl

theorem send_tweet_bool_outcome_witness :
    (send_tweet ⟨2, 2, 10⟩ (fun i => (Except.error i : Except Nat Unit)) "hi").result
      = Except.ok false := by
  have h := (send_tweet_bool_outcome ⟨2, 2, 10⟩
    (fun i => (Except.error i : Except Nat Unit)) "hi" (by decide)).2
  exact h (by decide) (fun i => ⟨i, rfl⟩)

/-- C10: with no tweets configured, `send_random_tweet` returns the
boolean `False` without selecting a message, without entering
`send_tweet` (so neither validation nor the posting operation runs),
and without raising. -/
theorem send_random_tweet_empty {ε : Type u} {α : Type v} (p : RetryPolicy)
    (op : Nat → Except ε α) (pick : Nat) :
    send_random_tweet p op [] pick = ⟨Except.ok false, none, 0⟩ := rfl

/-- C7: for every event/context pair and every behaviour of the bot
(initialization may raise; sending may raise a validation error or
return a boolean), `handler` returns a structured result — it never
lets an exception escape — whose status code is 200 exactly when the
send reported success and 500 otherwise. -/
theorem handler_total_status {Ev : Type u} {Ctx : Type v} {ε α : Type}
    (event : Ev) (context : Ctx) (initResult : Except String Unit)
    (p : RetryPolicy) (op : Nat → Except ε α) (tweets : List String)
    (pick : Nat) :
    ((handler event context initResult p op tweets pick).statusCode = 200 ∨
      (handler event context initResult p op tweets pick).statusCode = 500) ∧
    ((handler event context initResult p op tweets pick).statusCode = 200 ↔
      initResult = Except.ok () ∧
      (send_random_tweet p op tweets pick).result = Except.ok true) := by
  cases initResult with
  | error e =>
    refine ⟨Or.inr rfl, iff_of_false (by simp [handler]) ?_⟩
    rintro ⟨h1, _⟩
    exact Except.noConfusion h1
  | ok u0 =>
    obtain ⟨⟩ := u0
    rcases hres : (send_random_tweet p op tweets pick).result with e | b
    · refine ⟨Or.inr (by simp [handler, hres]),
        iff_of_false (by simp [handler, hres]) ?_⟩
      rintro ⟨_, h2⟩
      exact Except.noConfusion h2
    · cases b with
      | false =>
        refine ⟨Or.inr (by simp [handler, hres]),
          iff_of_false (by simp [handler, hres]) ?_⟩
        rintro ⟨_, h2⟩
        simp at h2
      | true =>
        exact ⟨Or.inl (by simp [handler, hres]),
          iff_of_true (by simp [handler, hres]) ⟨rfl, rfl⟩⟩

theorem handler_total_status_witness :
    (handler (0 : Nat) (0 : Nat) (Except.ok ()) ⟨3, 2, 10⟩
        (fun _ => (Except.ok 1 : Except Nat Nat)) ["hello"] 0).statusCode
      = 200 := by
  exact (handler_total_status (0 : Nat) (0 : Nat) (Except.ok ()) ⟨3, 2, 10⟩
    (fun _ => (Except.ok 1 : Except Nat Nat)) ["hello"] 0).2.mpr ⟨rfl, rfl⟩
